import Mathlib

/-!
Shallow embedding of the amibackup tool (v0.11, src/unnamed/part_001 lines
562-1002), covering the retention-window purge evaluator, the purge
executor, the backup orchestrator loops, the create-wait/timeout race and
the region dispatch of main.

Modelling conventions:
* instants and durations are `Int` (Go `time.Time` / `time.Duration`
  compared with the strict `Before`/`After`);
* the Go inventory map `images : map[string]time.Time` is modelled as an
  association list `List (String × Int)` whose order is the map iteration
  order (Go randomizes it, so theorems quantify over the order, and a
  faithful model must not presuppose one);
* remote EC2 calls are an oracle record `EC2Api`; executor functions
  return the list of issued mutating calls (plus dry-run log events) and
  a success/error outcome.
-/

namespace Amibackup

/-- Retention window (Go struct `window`, part_001 lines 522-526):
`start` is the more-distant absolute boundary, `stop` the more recent
one, and the cursor walks from `start` toward `stop`. -/
structure window where
  interval : Int
  start : Int
  stop : Int
  deriving DecidableEq, Repr

/-- Slice membership test from part_001 line 791:
`when.After(cursor) && when.Before(cursor.Add(window.interval))`.
Both comparisons are strict, and the slice end is not clamped to the
window stop boundary. -/
def inInterval (cursor interval when : Int) : Bool :=
  decide (cursor < when) && decide (when < cursor + interval)

/-- One pass of the `for id, when := range images` loop of part_001 lines
790-799: accumulate `imagesInThisInterval` (ids of images inside the
slice, in iteration order) together with the running
`(oldestImage, oldestImageTime)` pair.  The accumulator starts at
`([], "", now)` because Go initializes `oldestImage` to the empty string
and `oldestImageTime` to `time.Now()` (lines 788-789). -/
def sliceScan (cursor interval : Int) :
    List (String × Int) → List String × String × Int → List String × String × Int
  | [], acc => acc
  | p :: rest, acc =>
    if inInterval cursor interval p.2 then
      if p.2 < acc.2.2 then
        sliceScan cursor interval rest (acc.1 ++ [p.1], p.1, p.2)
      else
        sliceScan cursor interval rest (acc.1 ++ [p.1], acc.2.1, acc.2.2)
    else
      sliceScan cursor interval rest acc

/-- The ids collected for one slice (`imagesInThisInterval`). -/
def imagesInThisInterval (images : List (String × Int)) (cursor interval now : Int) :
    List String :=
  (sliceScan cursor interval images ([], "", now)).1

/-- The designated survivor for one slice (`oldestImage`). -/
def oldestImage (images : List (String × Int)) (cursor interval now : Int) : String :=
  (sliceScan cursor interval images ([], "", now)).2.1

/-- Ids selected for deletion in one slice (part_001 lines 800-805): when
the slice holds more than one image, every id except `oldestImage` is
deregistered, in iteration order. -/
def sliceVictims (images : List (String × Int)) (cursor interval now : Int) :
    List String :=
  if 1 < (imagesInThisInterval images cursor interval now).length then
    (imagesInThisInterval images cursor interval now).filter
      (fun id => decide (id ≠ oldestImage images cursor interval now))
  else []

/-- Cursor walk of part_001 line 785:
`for cursor := window.start; cursor.Before(window.stop); cursor = cursor.Add(window.interval)`.
Implemented with explicit fuel; fuel `(stop - start).toNat` is exact for
any `interval ≥ 1` (the Go loop diverges for `interval ≤ 0`, so all
theorems about windows carry a positivity hypothesis). -/
def cursorSeq : Nat → Int → Int → Int → List Int
  | 0, _, _, _ => []
  | n + 1, cursor, stop, interval =>
    if cursor < stop then cursor :: cursorSeq n (cursor + interval) stop interval
    else []

/-- All cursor positions visited for one window. -/
def cursors (w : window) : List Int :=
  cursorSeq (w.stop - w.start).toNat w.start w.stop w.interval

/-- Ids selected for deletion by one window: concatenation of the slice
victims over the cursor walk (part_001 lines 785-839). -/
def windowVictims (images : List (String × Int)) (w : window) (now : Int) :
    List String :=
  (cursors w).flatMap (fun c => sliceVictims images c w.interval now)

/-- Ids selected for deletion by the whole run, windows processed in
order (part_001 line 783).  Each window is evaluated against the full
in-memory `images` map, which is never mutated by the deletions, so the
same id can occur once per selecting window. -/
def purgeVictims (images : List (String × Int)) (ws : List window) (now : Int) :
    List String :=
  ws.flatMap (fun w => windowVictims images w now)

/-- Inventory left after removing the purged ids. -/
def residualInventory (images : List (String × Int)) (purged : List String) :
    List (String × Int) :=
  images.filter (fun p => !(purged.contains p.1))

/-- Oracle for the remote EC2 API: per-resource outcomes of the calls the
tool issues.  `snapshotsOf` is the result of `findSnapshots` (part_001
lines 630-644; an `Except.error` is a failed `DescribeImages` read);
`deregisterOk id = false` covers both a failed `DeregisterImage` call and
a `resp.Return != true` response (lines 813-819). -/
structure EC2Api where
  snapshotsOf : String → Except Unit (List String)
  deregisterOk : String → Bool
  deleteSnapOk : String → Bool
  createOk : String → Bool
  createdId : String → String
  tagOk : String → Bool
  copyOk : String → Bool
  copiedId : String → String

/-- Events of a run: the five mutating EC2 calls the tool can issue, and
the DRYRUN debug lines that replace them in dry-run mode. -/
inductive Call where
  | deregisterImage (id : String)
  | deleteSnapshot (id : String)
  | createImage (instanceId : String)
  | createTags (resourceId : String)
  | copyImage (id : String)
  | logWouldDeregister (id : String)
  | logWouldDeleteSnapshot (id : String)
  | logWouldCreate (instanceId : String)
  | logWouldCopy
  deriving DecidableEq, Repr

/-- Whether an event is a mutating remote call (the log events are not). -/
def Call.isMutating : Call → Bool
  | .deregisterImage _ => true
  | .deleteSnapshot _ => true
  | .createImage _ => true
  | .createTags _ => true
  | .copyImage _ => true
  | .logWouldDeregister _ => false
  | .logWouldDeleteSnapshot _ => false
  | .logWouldCreate _ => false
  | .logWouldCopy => false

/-- The `for snap := range snaps` deletion loop of part_001 lines
824-832 (non-dry-run branch): one `DeleteSnapshots` call per snapshot;
the first failure makes `purgeAMIs` return the error, aborting the rest
of the purge pass.  Result: issued calls and an error flag. -/
def deleteSnapshotsLoop (api : EC2Api) : List String → List Call × Bool
  | [] => ([], false)
  | snap :: rest =>
    if api.deleteSnapOk snap then
      let r := deleteSnapshotsLoop api rest
      (Call.deleteSnapshot snap :: r.1, r.2)
    else ([Call.deleteSnapshot snap], true)

/-- Per-victim body of `purgeAMIs` (part_001 lines 801-838), iterated
over the selected ids in order.  For each id: `findSnapshots` (a read;
its failure returns an error, aborting the pass), then - unless dry-run -
`DeregisterImage` followed by the snapshot deletion loop, any failure
returning the error immediately (`return fmt.Errorf...`), which abandons
every remaining id, cursor and window.  In dry-run mode only DRYRUN debug
lines are emitted and the loop always continues. -/
def purgeLoop (api : EC2Api) (dryRun : Bool) : List String → List Call × Bool
  | [] => ([], false)
  | id :: rest =>
    match api.snapshotsOf id with
    | .error _ => ([], true)
    | .ok snaps =>
      if dryRun then
        let r := purgeLoop api dryRun rest
        (Call.logWouldDeregister id :: snaps.map Call.logWouldDeleteSnapshot ++ r.1, r.2)
      else
        if api.deregisterOk id then
          let sr := deleteSnapshotsLoop api snaps
          if sr.2 then (Call.deregisterImage id :: sr.1, true)
          else
            let r := purgeLoop api dryRun rest
            (Call.deregisterImage id :: sr.1 ++ r.1, r.2)
        else ([Call.deregisterImage id], true)

/-- One `purgeAMIs` run (part_001 lines 756-843).  The in-memory `images`
map is never mutated by the deletions, so selection is independent of the
API effects: the run is the selection (`purgeVictims`) followed by the
per-victim effects in selection order, with early abort on the first
error. -/
def purgeAMIs (api : EC2Api) (images : List (String × Int)) (ws : List window)
    (now : Int) (dryRun : Bool) : List Call × Bool :=
  purgeLoop api dryRun (purgeVictims images ws now)

/-- Creation loop of `createAMIs` (part_001 lines 650-684), over the
matched instances in order.  Non-dry-run: `CreateImage` then
`CreateTags`; either failure calls `session.fatal`, which terminates the
whole process with exit code 2 (modelled as `Except.error 2`).  Dry-run:
only a DRYRUN debug line per instance.  On success the map of new AMI id
to instance id is returned. -/
def createAMIsLoop (api : EC2Api) (dryRun : Bool) :
    List String → List Call × Except Nat (List (String × String))
  | [] => ([], Except.ok [])
  | inst :: rest =>
    if dryRun then
      let r := createAMIsLoop api dryRun rest
      (Call.logWouldCreate inst :: r.1, r.2)
    else
      if api.createOk inst then
        let img := api.createdId inst
        if api.tagOk img then
          let r := createAMIsLoop api dryRun rest
          (Call.createImage inst :: Call.createTags img :: r.1,
            r.2.map (fun l => (img, inst) :: l))
        else ([Call.createImage inst, Call.createTags img], Except.error 2)
      else ([Call.createImage inst], Except.error 2)

/-- `copyAMI` (part_001 lines 722-753): nothing is copied when source and
destination regions match; otherwise, per new AMI, `CopyImage` then
`CreateTags` on the copy, either failure terminating the process via
`session.fatal` (exit code 2). -/
def copyAMILoop (api : EC2Api) : List (String × String) → List Call × Except Nat Unit
  | [] => ([], Except.ok ())
  | (amiId, _inst) :: rest =>
    if api.copyOk amiId then
      let newId := api.copiedId amiId
      if api.tagOk newId then
        let r := copyAMILoop api rest
        (Call.copyImage amiId :: Call.createTags newId :: r.1, r.2)
      else ([Call.copyImage amiId, Call.createTags newId], Except.error 2)
    else ([Call.copyImage amiId], Except.error 2)

/-- The copy phase of `main` (part_001 lines 601-606 with `copyAMI`
lines 722-753): in dry-run mode a single DRYRUN debug line replaces the
whole phase; otherwise `copyAMI` runs, doing nothing when the regions
match. -/
def mainCopyPhase (api : EC2Api) (dryRun sameRegion : Bool)
    (amis : List (String × String)) : List Call × Except Nat Unit :=
  if dryRun then ([Call.logWouldCopy], Except.ok ())
  else if sameRegion then ([], Except.ok ())
  else copyAMILoop api amis

/-- One tick of the polling goroutine of part_001 lines 688-707: the
ids reported "available" by the `Images` poll are removed from the
pending map. -/
def pollOnce (pending : List String) (available : List String) : List String :=
  pending.filter (fun id => !(available.contains id))

/-- Pending set after the polls completed before the watchdog deadline. -/
def runPolls (pending : List String) (polls : List (List String)) : List String :=
  polls.foldl pollOnce pending

/-- Outcome of the `select` race of part_001 lines 709-717. -/
inductive WaitOutcome where
  | completed
  | timedOut (pending : List String) (exitCode : Nat)
  deriving DecidableEq, Repr

/-- Exit code installed by `session.fatal` (part_001 lines 868-876:
`s.errorLevel = 2; os.Exit(s.errorLevel)`). -/
def fatalExitCode : Nat := 2

/-- The create-wait race of part_001 lines 686-717: the goroutine keeps
polling until the pending map empties and then signals `done`; `select`
races that signal against `time.After(s.timeout)`.  With `polls` the
poll results observed before the deadline: if they empty the pending set
the run completes, otherwise `session.fatal` reports the ids still
pending and exits with code 2. -/
def createWait (pending : List String) (polls : List (List String)) : WaitOutcome :=
  let remaining := runPolls pending polls
  if remaining.isEmpty then WaitOutcome.completed
  else WaitOutcome.timedOut remaining fatalExitCode

/-- Purge-phase dispatch of `main` (part_001 lines 573-584): with at
least one window, `purgeAMIs` runs against the source region, and - when
the destination region differs - a second time against the destination
region, both with the same windows. -/
def mainPurgePasses (ws : List window) (sourceRegion destRegion : String) :
    List (String × List window) :=
  if 0 < ws.length then
    if destRegion ≠ sourceRegion then [(sourceRegion, ws), (destRegion, ws)]
    else [(sourceRegion, ws)]
  else []

/-! ## Lemmas about the evaluator -/

theorem inInterval_iff (c i t : Int) : inInterval c i t = true ↔ c < t ∧ t < c + i := by
  simp [inInterval]

theorem sliceScan_fst (c i : Int) (l : List (String × Int))
    (acc : List String × String × Int) :
    (sliceScan c i l acc).1 =
      acc.1 ++ (l.filter (fun p => inInterval c i p.2)).map Prod.fst := by
  induction l generalizing acc with
  | nil => simp [sliceScan]
  | cons p rest ih =>
    by_cases h : inInterval c i p.2
    · by_cases h2 : p.2 < acc.2.2
      · simp [sliceScan, h, h2, ih, List.filter_cons]
      · simp [sliceScan, h, h2, ih, List.filter_cons]
    · simp [sliceScan, h, ih, List.filter_cons]

theorem imagesInThisInterval_eq (images : List (String × Int)) (c i now : Int) :
    imagesInThisInterval images c i now =
      (images.filter (fun p => inInterval c i p.2)).map Prod.fst := by
  simp [imagesInThisInterval, sliceScan_fst]

theorem mem_imagesInThisInterval {images : List (String × Int)} {c i now : Int}
    {id : String} :
    id ∈ imagesInThisInterval images c i now ↔
      ∃ p ∈ images, inInterval c i p.2 = true ∧ p.1 = id := by
  rw [imagesInThisInterval_eq]
  simp [List.mem_map, List.mem_filter, and_assoc]

theorem mem_sliceVictims {images : List (String × Int)} {c i now : Int} {id : String} :
    id ∈ sliceVictims images c i now ↔
      1 < (imagesInThisInterval images c i now).length ∧
        id ∈ imagesInThisInterval images c i now ∧
        id ≠ oldestImage images c i now := by
  by_cases h : 1 < (imagesInThisInterval images c i now).length
  · simp [sliceVictims, h, List.mem_filter]
  · simp [sliceVictims, h]

theorem mem_purgeVictims {images : List (String × Int)} {ws : List window} {now : Int}
    {id : String} :
    id ∈ purgeVictims images ws now ↔
      ∃ w ∈ ws, ∃ c ∈ cursors w, id ∈ sliceVictims images c w.interval now := by
  simp [purgeVictims, windowVictims, List.mem_flatMap]

theorem cursorSeq_mem_bound {i : Int} (hi : 0 ≤ i) :
    ∀ (n : Nat) (cur stop c : Int), c ∈ cursorSeq n cur stop i → cur ≤ c ∧ c < stop := by
  intro n
  induction n with
  | zero => intro cur stop c h; simp [cursorSeq] at h
  | succ n ih =>
    intro cur stop c h
    by_cases hc : cur < stop
    · simp only [cursorSeq, if_pos hc, List.mem_cons] at h
      rcases h with h | h
      · exact ⟨le_of_eq h.symm, h ▸ hc⟩
      · have hb := ih (cur + i) stop c h
        exact ⟨le_trans (by linarith) hb.1, hb.2⟩
    · simp [cursorSeq, hc] at h

theorem mem_residualInventory {images : List (String × Int)} {V : List String}
    {p : String × Int} :
    p ∈ residualInventory images V ↔ p ∈ images ∧ p.1 ∉ V := by
  simp [residualInventory, List.mem_filter]

theorem length_le_one_of_nodup_all_eq {α : Type} {l : List α} {x : α} (hnd : l.Nodup)
    (h : ∀ a ∈ l, a = x) : l.length ≤ 1 := by
  match l, h with
  | [], _ => simp
  | [a], _ => simp
  | a :: b :: t, h =>
    exfalso
    have ha := h a (by simp)
    have hb := h b (by simp)
    rw [List.nodup_cons] at hnd
    exact hnd.1 (by simp [ha, hb])

/-! ## Claim theorems -/

/-- C1: the claim states that survivor selection inside a bucket is
deterministic, with ties on the backup timestamp broken by a stable
secondary key.  The code instead keeps the first minimal-timestamp entry
in Go map iteration order, which is randomized: with two images tied at
timestamp 5 inside the single slice of the window
interval 10, start 0, stop 10, the iteration order `a, b` purges `b`
while the order `b, a` purges `a` - two runs on the same inventory can
select different survivors. -/
theorem purge_tie_break_order_dependent :
    purgeVictims [("a", 5), ("b", 5)] [⟨10, 0, 10⟩] 100 = ["b"] ∧
      purgeVictims [("b", 5), ("a", 5)] [⟨10, 0, 10⟩] 100 = ["a"] := by decide

/-- C2 counterexample: with the window interval 7, start 0, stop 10 and
the inventory with image `a` at timestamp 8 and image `b` at 12, the
evaluator purges `b`, whose timestamp lies outside the window's
span `[0, 10)` (the final slice `(7, 14)` overshoots the stop
boundary). -/
theorem purge_outside_window_span_cex :
    purgeVictims [("a", 8), ("b", 12)] [⟨7, 0, 10⟩] 100 = ["b"] ∧
      ¬ ((0 : Int) ≤ 12 ∧ (12 : Int) < 10) := by decide

/-- C2 amended: every purged image comes from some window `w` and
satisfies `w.start < t < w.stop + w.interval`: images at or before
`start` and at or beyond `stop + interval` are never purged, but an
image with `stop ≤ t < stop + interval` can be purged when the window
span is not a multiple of the interval, because the final slice of the
cursor walk is not clamped to `stop`. -/
theorem purge_only_within_extended_span (images : List (String × Int))
    (ws : List window) (now : Int) (id : String)
    (hi : ∀ w ∈ ws, 0 < w.interval) (hid : id ∈ purgeVictims images ws now) :
    ∃ w ∈ ws, ∃ p ∈ images, p.1 = id ∧ w.start < p.2 ∧ p.2 < w.stop + w.interval := by
  rw [mem_purgeVictims] at hid
  obtain ⟨w, hw, c, hc, hv⟩ := hid
  have hcb := cursorSeq_mem_bound (le_of_lt (hi w hw)) _ w.start w.stop c hc
  rw [mem_sliceVictims] at hv
  obtain ⟨-, hmem, -⟩ := hv
  rw [mem_imagesInThisInterval] at hmem
  obtain ⟨p, hp, hin, hfst⟩ := hmem
  rw [inInterval_iff] at hin
  exact ⟨w, hw, p, hp, hfst, by linarith [hcb.1, hin.1], by linarith [hcb.2, hin.2]⟩

/-- Witness for the C2 amended theorem at a concrete input. -/
theorem purge_only_within_extended_span_witness :
    ∃ w ∈ [(⟨7, 0, 10⟩ : window)], ∃ p ∈ [("a", 8), (("b" : String), (12 : Int))],
      p.1 = "b" ∧ w.start < p.2 ∧ p.2 < w.stop + w.interval :=
  purge_only_within_extended_span [("a", 8), ("b", 12)] [⟨7, 0, 10⟩] 100 "b"
    (by decide) (by decide)

/-- C3 counterexample: the claim fixes slice membership as
`cursor ≤ t < min (cursor + interval) stop`.  For the window
interval 7, start 0, stop 10 the cursor walk visits 0 and 7; an image
timestamped exactly at the cursor boundary 0 is excluded from that
slice's bucket (the code uses the strict `when.After(cursor)`), and an
image at 11 is included in the bucket of cursor 7 although
`11 ≥ min (7 + 7) 10` (the code never clamps the slice end to the stop
boundary). -/
theorem slice_membership_boundary_cex :
    cursors ⟨7, 0, 10⟩ = [0, 7] ∧
      imagesInThisInterval [("a", 0)] 0 7 100 = [] ∧
      ((0 : Int) ≤ 0 ∧ (0 : Int) < min ((0 : Int) + 7) 10) ∧
      imagesInThisInterval [("b", 11)] 7 7 100 = ["b"] ∧
      ¬ ((11 : Int) < min ((7 : Int) + 7) 10) := by decide

/-- C3 amended: at each cursor position an image belongs to the slice's
bucket exactly when its backup timestamp t satisfies
`cursor < t < cursor + interval` - both boundaries are exclusive, an
image timestamped exactly at the cursor is excluded, and the slice end
is not clamped to the window's stop boundary. -/
theorem slice_membership_iff (images : List (String × Int)) (c i now : Int)
    (id : String) :
    id ∈ imagesInThisInterval images c i now ↔
      ∃ p ∈ images, p.1 = id ∧ c < p.2 ∧ p.2 < c + i := by
  rw [mem_imagesInThisInterval]
  constructor
  · rintro ⟨p, hp, hin, hfst⟩
    exact ⟨p, hp, hfst, (inInterval_iff _ _ _).mp hin⟩
  · rintro ⟨p, hp, hfst, hin⟩
    exact ⟨p, hp, (inInterval_iff _ _ _).mpr hin, hfst⟩

/-- C10: with at least one retention window, main runs one purge pass
against the source region and, exactly when the destination region
differs, a second pass against the destination region with the same
windows; with equal regions the purge pass runs exactly once. -/
theorem purge_pass_per_region (ws : List window) (src dst : String) (hws : ws ≠ []) :
    (dst ≠ src → mainPurgePasses ws src dst = [(src, ws), (dst, ws)]) ∧
      (dst = src → mainPurgePasses ws src dst = [(src, ws)]) := by
  have hlen : 0 < ws.length := List.length_pos.mpr hws
  constructor
  · intro hne; simp [mainPurgePasses, hlen, hne]
  · intro heq; simp [mainPurgePasses, hlen, heq]

/-- Witness for the C10 theorem at concrete regions and windows. -/
theorem purge_pass_per_region_witness :
    mainPurgePasses [⟨1, 0, 1⟩] "us-east-1" "us-west-1" =
        [("us-east-1", [⟨1, 0, 1⟩]), ("us-west-1", [⟨1, 0, 1⟩])] ∧
      mainPurgePasses [⟨1, 0, 1⟩] "us-east-1" "us-east-1" =
        [("us-east-1", [⟨1, 0, 1⟩])] :=
  ⟨(purge_pass_per_region [⟨1, 0, 1⟩] "us-east-1" "us-west-1" (by decide)).1 (by decide),
    (purge_pass_per_region [⟨1, 0, 1⟩] "us-east-1" "us-east-1" (by decide)).2 rfl⟩

/-- Core of the idempotence argument: once every victim of a slice is in
the removed set `V`, the residual inventory holds at most one image per
slice (the survivor, if it was not removed by another window), so the
slice selects nothing on a re-run. -/
theorem sliceVictims_residual_nil (images : List (String × Int)) (V : List String)
    (c i now : Int) (hnd : (images.map Prod.fst).Nodup)
    (hV : ∀ x ∈ sliceVictims images c i now, x ∈ V) :
    sliceVictims (residualInventory images V) c i now = [] := by
  have hsub : List.Sublist (residualInventory images V) images :=
    List.filter_sublist images
  have hlen2 : (imagesInThisInterval (residualInventory images V) c i now).length ≤ 1 := by
    by_cases h1 : 1 < (imagesInThisInterval images c i now).length
    · have hall : ∀ p ∈ (residualInventory images V).filter (fun p => inInterval c i p.2),
          p.1 = oldestImage images c i now := by
        intro p hp
        have hp2 := List.mem_filter.mp hp
        have hpr := mem_residualInventory.mp hp2.1
        by_contra hne
        apply hpr.2
        apply hV
        rw [mem_sliceVictims]
        refine ⟨h1, ?_, hne⟩
        rw [mem_imagesInThisInterval]
        exact ⟨p, hpr.1, hp2.2, rfl⟩
      have hnd2 : (((residualInventory images V).filter
          (fun p => inInterval c i p.2)).map Prod.fst).Nodup := by
        have hs2 : List.Sublist
            (((residualInventory images V).filter (fun p => inInterval c i p.2)).map Prod.fst)
            (images.map Prod.fst) :=
          ((List.filter_sublist _).trans hsub).map Prod.fst
        exact hnd.sublist hs2
      rw [imagesInThisInterval_eq]
      apply length_le_one_of_nodup_all_eq hnd2
      intro a ha
      obtain ⟨p, hp, hpa⟩ := List.mem_map.mp ha
      exact hpa ▸ hall p hp
    · have hs3 : List.Sublist
          ((residualInventory images V).filter (fun p => inInterval c i p.2))
          (images.filter (fun p => inInterval c i p.2)) := hsub.filter _
      rw [imagesInThisInterval_eq, List.length_map] at h1 ⊢
      have := hs3.length_le
      omega
  have hnot : ¬ 1 < (imagesInThisInterval (residualInventory images V) c i now).length := by
    omega
  simp [sliceVictims, hnot]

/-- C9: running the evaluator once, removing the purged ids from the
inventory, and running it again with the same windows and boundaries
selects nothing: after the first pass every slice of every window holds
at most one image.  The inventory is a Go map, so its keys are distinct,
and the tool only terminates for positive window intervals; both facts
enter as hypotheses. -/
theorem purge_idempotent (images : List (String × Int)) (ws : List window) (now : Int)
    (hnd : (images.map Prod.fst).Nodup) (hi : ∀ w ∈ ws, 0 < w.interval) :
    purgeVictims (residualInventory images (purgeVictims images ws now)) ws now = [] := by
  rw [List.eq_nil_iff_forall_not_mem]
  intro id hid
  rw [mem_purgeVictims] at hid
  obtain ⟨w, hw, c, hc, hv⟩ := hid
  have hnil := sliceVictims_residual_nil images (purgeVictims images ws now) c
    w.interval now hnd (fun x hx => mem_purgeVictims.mpr ⟨w, hw, c, hc, hx⟩)
  rw [hnil] at hv
  exact (List.not_mem_nil id) hv

/-- Witness for the C9 theorem: the inventory with a tie purges one of
the two images, and the evaluator selects nothing on the residue. -/
theorem purge_idempotent_witness :
    purgeVictims
        (residualInventory [("a", 5), ("b", 5)]
          (purgeVictims [("a", 5), ("b", 5)] [⟨10, 0, 10⟩] 100))
        [⟨10, 0, 10⟩] 100 = [] :=
  purge_idempotent [("a", 5), ("b", 5)] [⟨10, 0, 10⟩] 100 (by decide) (by decide)

/-! ## Lemmas about the create-wait race -/

theorem runPolls_eq_filter (polls : List (List String)) (pending : List String) :
    runPolls pending polls =
      pending.filter (fun id => polls.all (fun q => !(q.contains id))) := by
  induction polls generalizing pending with
  | nil => simp [runPolls]
  | cons q ps ih =>
    have hstep : runPolls pending (q :: ps) = runPolls (pollOnce pending q) ps := rfl
    rw [hstep, ih (pollOnce pending q)]
    simp only [pollOnce, List.filter_filter]
    apply List.filter_congr
    intro a _
    simp [Bool.and_comm]

/-- C8: when the watchdog deadline elapses with images still pending -
some pending id was never reported available by the polls completed
before the deadline - the run aborts fatally: the reported pending set
is exactly the pending ids never reported available, and the exit code
is 2 (`session.fatal`), regardless of how many images completed. -/
theorem global_timeout_reports_pending (pending : List String)
    (polls : List (List String))
    (h : ∃ id ∈ pending, ∀ q ∈ polls, q.contains id = false) :
    createWait pending polls =
      WaitOutcome.timedOut
        (pending.filter (fun id => polls.all (fun q => !(q.contains id)))) 2 := by
  obtain ⟨id, hidp, hnever⟩ := h
  have hmem : id ∈ runPolls pending polls := by
    rw [runPolls_eq_filter]
    refine List.mem_filter.mpr ⟨hidp, ?_⟩
    rw [List.all_eq_true]
    intro q hq
    show (!(q.contains id)) = true
    rw [hnever q hq]
    rfl
  have hne : runPolls pending polls ≠ [] := List.ne_nil_of_mem hmem
  have hemp : (runPolls pending polls).isEmpty = false := by
    simp [List.isEmpty_iff, hne]
  simp only [createWait, hemp, Bool.false_eq_true, if_false]
  rw [runPolls_eq_filter]
  rfl

/-- Witness for the C8 theorem, mirroring spec scenario C: five pending
images, the polls before the deadline report three available, the run
times out reporting exactly the other two and exits with code 2. -/
theorem global_timeout_reports_pending_witness :
    createWait ["ami-1", "ami-2", "ami-3", "ami-4", "ami-5"]
        [["ami-1"], ["ami-2", "ami-3"]] =
      WaitOutcome.timedOut ["ami-4", "ami-5"] 2 := by
  have h := global_timeout_reports_pending
    ["ami-1", "ami-2", "ami-3", "ami-4", "ami-5"] [["ami-1"], ["ami-2", "ami-3"]]
    ⟨"ami-4", by decide, by decide⟩
  rw [h]
  rfl

/-! ## Lemmas about the purge executor and orchestrator loops -/

/-- Sample oracle on which every remote call succeeds and no image has
dependent snapshots; concrete runs below override single fields. -/
def allOkApi : EC2Api where
  snapshotsOf := fun _ => Except.ok []
  deregisterOk := fun _ => true
  deleteSnapOk := fun _ => true
  createOk := fun _ => true
  createdId := fun s => s
  tagOk := fun _ => true
  copyOk := fun _ => true
  copiedId := fun s => s

theorem deleteSnapshotsLoop_all_ok (api : EC2Api)
    (hds : ∀ x, api.deleteSnapOk x = true) (snaps : List String) :
    deleteSnapshotsLoop api snaps = (snaps.map Call.deleteSnapshot, false) := by
  induction snaps with
  | nil => rfl
  | cons s rest ih => simp [deleteSnapshotsLoop, hds s, ih]

theorem count_deregister_in_snapshot_calls (id : String) (l : List String) :
    (l.map Call.deleteSnapshot).count (Call.deregisterImage id) = 0 := by
  rw [List.count_eq_zero]
  intro h
  obtain ⟨x, -, hx⟩ := List.mem_map.mp h
  exact Call.noConfusion hx

theorem purgeLoop_dry_run (api : EC2Api) (snapFn : String → List String)
    (hs : ∀ x, api.snapshotsOf x = Except.ok (snapFn x)) (victims : List String) :
    purgeLoop api true victims =
      (victims.flatMap (fun id =>
          Call.logWouldDeregister id :: (snapFn id).map Call.logWouldDeleteSnapshot),
        false) := by
  induction victims with
  | nil => rfl
  | cons v rest ih => simp [purgeLoop, hs v, ih]

theorem createAMIsLoop_dry_run (api : EC2Api) (insts : List String) :
    createAMIsLoop api true insts = (insts.map Call.logWouldCreate, Except.ok []) := by
  induction insts with
  | nil => rfl
  | cons inst rest ih => simp [createAMIsLoop, ih]

theorem createAMIsLoop_error_of_failure (api : EC2Api) (insts : List String)
    (h : ∃ i ∈ insts, api.createOk i = false ∨ api.tagOk (api.createdId i) = false) :
    (createAMIsLoop api false insts).2 = Except.error 2 := by
  induction insts with
  | nil => simp at h
  | cons inst rest ih =>
    obtain ⟨i, hi, hfail⟩ := h
    rcases List.mem_cons.mp hi with rfl | hmem
    · rcases hfail with hcf | htf
      · simp [createAMIsLoop, hcf]
      · by_cases hc : api.createOk i
        · simp [createAMIsLoop, hc, htf]
        · simp [createAMIsLoop, hc]
    · by_cases hc : api.createOk inst
      · by_cases ht : api.tagOk (api.createdId inst)
        · have h2 := ih ⟨i, hmem, hfail⟩
          simp only [createAMIsLoop, hc, ht, if_true, Bool.false_eq_true, if_false]
          rw [h2]
          rfl
        · simp [createAMIsLoop, hc, ht]
      · simp [createAMIsLoop, hc]

theorem copyAMILoop_error_of_failure (api : EC2Api) (amis : List (String × String))
    (h : ∃ a ∈ amis, api.copyOk a.1 = false ∨ api.tagOk (api.copiedId a.1) = false) :
    (copyAMILoop api amis).2 = Except.error 2 := by
  induction amis with
  | nil => simp at h
  | cons a rest ih =>
    obtain ⟨amiId, inst⟩ := a
    obtain ⟨b, hb, hfail⟩ := h
    rcases List.mem_cons.mp hb with rfl | hmem
    · rcases hfail with hcf | htf
      · simp [copyAMILoop, hcf]
      · by_cases hc : api.copyOk amiId
        · simp at htf
          simp [copyAMILoop, hc, htf]
        · simp [copyAMILoop, hc]
    · by_cases hc : api.copyOk amiId
      · by_cases ht : api.tagOk (api.copiedId amiId)
        · have h2 := ih ⟨b, hmem, hfail⟩
          simp only [copyAMILoop, hc, ht, if_true, Bool.false_eq_true, if_false]
          rw [← h2]
        · simp [copyAMILoop, hc, ht]
      · simp [copyAMILoop, hc]

/-- C4 counterexample: two overlapping windows (interval 10, spans
`[0, 10)` and `[2, 12)`) both select image `b` (timestamp 5, with the
older `a` at 3 surviving both buckets): `b` occurs twice in the victim
sequence and the executor issues two `DeregisterImage` calls for it in
one run, because the in-memory inventory is never updated after a
deletion. -/
theorem purge_duplicate_delete_cex :
    (purgeVictims [("a", 3), ("b", 5)] [⟨10, 0, 10⟩, ⟨10, 2, 12⟩] 100).count "b" = 2 ∧
      (purgeAMIs allOkApi [("a", 3), ("b", 5)] [⟨10, 0, 10⟩, ⟨10, 2, 12⟩] 100
            false).1.count (Call.deregisterImage "b") = 2 := by decide

/-- C4 amended: an image targeted by several windows is selected once
per targeting window (the selection is a sequence, not a set), and when
every call succeeds the executor issues exactly one `DeregisterImage`
call per selection occurrence - so overlapping windows produce repeated
delete calls for the same image rather than at most one per run. -/
theorem deregister_calls_per_selection (api : EC2Api) (snapFn : String → List String)
    (images : List (String × Int)) (ws : List window) (now : Int) (id : String)
    (hs : ∀ x, api.snapshotsOf x = Except.ok (snapFn x))
    (hd : ∀ x, api.deregisterOk x = true)
    (hds : ∀ x, api.deleteSnapOk x = true) :
    (purgeAMIs api images ws now false).1.count (Call.deregisterImage id) =
      (purgeVictims images ws now).count id := by
  unfold purgeAMIs
  generalize purgeVictims images ws now = vs
  induction vs with
  | nil => rfl
  | cons v rest ih =>
    have hloop : purgeLoop api false (v :: rest) =
        (Call.deregisterImage v ::
            ((snapFn v).map Call.deleteSnapshot ++ (purgeLoop api false rest).1),
          (purgeLoop api false rest).2) := by
      simp [purgeLoop, hs v, hd v, deleteSnapshotsLoop_all_ok api hds (snapFn v)]
    rw [hloop]
    by_cases hv : v = id
    · subst hv
      simp [List.count_cons, List.count_append, count_deregister_in_snapshot_calls, ih]
    · simp [List.count_cons, List.count_append, count_deregister_in_snapshot_calls, ih, hv]

/-- Witness for the C4 amended theorem at the overlapping-window input. -/
theorem deregister_calls_per_selection_witness :
    (purgeAMIs allOkApi [("a", 3), ("b", 5)] [⟨10, 0, 10⟩, ⟨10, 2, 12⟩] 100
          false).1.count (Call.deregisterImage "b") =
      (purgeVictims [("a", 3), ("b", 5)] [⟨10, 0, 10⟩, ⟨10, 2, 12⟩] 100).count "b" :=
  deregister_calls_per_selection allOkApi (fun _ => [])
    [("a", 3), ("b", 5)] [⟨10, 0, 10⟩, ⟨10, 2, 12⟩] 100 "b"
    (fun _ => rfl) (fun _ => rfl) (fun _ => rfl)

/-- C5 counterexample: the window interval 10, span `[0, 10)` selects
the victims `b` and `c` (the older `a` survives); with `DeregisterImage`
failing for `b`, the executor returns immediately after that single
failed call - `c` is selected but never processed, so the run does not
continue with the remaining ids. -/
theorem purge_abort_on_failure_cex :
    purgeVictims [("a", 3), ("b", 5), ("c", 7)] [⟨10, 0, 10⟩] 100 = ["b", "c"] ∧
      purgeAMIs { allOkApi with deregisterOk := fun id => !(id == "b") }
          [("a", 3), ("b", 5), ("c", 7)] [⟨10, 0, 10⟩] 100 false =
        ([Call.deregisterImage "b"], true) := by decide

/-- C5 amended: a failure deleting one image or one dependent snapshot
aborts the purge pass at that point - the failing call is the last call
issued and every remaining id is dropped - and the error is returned to
the caller (in main the returned error is only written to the debug log
and the exit disposition is left unchanged). -/
theorem purge_failure_aborts_pass (api : EC2Api) (id : String) (rest : List String)
    (snaps : List String) (hs : api.snapshotsOf id = Except.ok snaps) :
    (api.deregisterOk id = false →
        purgeLoop api false (id :: rest) = ([Call.deregisterImage id], true)) ∧
      (∀ s rest2, api.deregisterOk id = true → snaps = s :: rest2 →
        api.deleteSnapOk s = false →
        purgeLoop api false (id :: rest) =
          ([Call.deregisterImage id, Call.deleteSnapshot s], true)) := by
  constructor
  · intro hd
    simp [purgeLoop, hs, hd]
  · intro s rest2 hd hsn hds
    subst hsn
    simp [purgeLoop, hs, hd, deleteSnapshotsLoop, hds]

/-- Witness for the C5 amended theorem: an image-delete failure and a
snapshot-delete failure, each aborting before the second victim. -/
theorem purge_failure_aborts_pass_witness :
    purgeLoop { allOkApi with deregisterOk := fun id => !(id == "b") } false
        ["b", "c"] = ([Call.deregisterImage "b"], true) ∧
      purgeLoop { allOkApi with
          snapshotsOf := fun _ => Except.ok ["snap-1"]
          deleteSnapOk := fun _ => false } false ["b", "c"] =
        ([Call.deregisterImage "b", Call.deleteSnapshot "snap-1"], true) :=
  ⟨(purge_failure_aborts_pass _ "b" ["c"] [] rfl).1 (by decide),
    (purge_failure_aborts_pass _ "b" ["c"] ["snap-1"] rfl).2 "snap-1" []
      (by decide) rfl (by decide)⟩

/-- C6 counterexample: two matched instances; the create call for the
first fails.  The process is terminated at once with exit code 2
(`session.fatal`): the trace holds the single failed create call and the
second instance is never attempted - its task does not continue. -/
theorem create_failure_kills_process_cex :
    createAMIsLoop { allOkApi with createOk := fun i => !(i == "i-1") } false
        ["i-1", "i-2"] = ([Call.createImage "i-1"], Except.error 2) := rfl

/-- C6 amended: any create, copy, or tag call failure for one instance
terminates the whole process fatally with exit code 2 via
`session.fatal` - there is no per-instance Failed state, and the
remaining instances' tasks are not continued. -/
theorem create_copy_tag_failure_fatal (api : EC2Api) (insts : List String)
    (amis : List (String × String)) :
    ((∃ i ∈ insts, api.createOk i = false ∨ api.tagOk (api.createdId i) = false) →
        (createAMIsLoop api false insts).2 = Except.error 2) ∧
      ((∃ a ∈ amis, api.copyOk a.1 = false ∨ api.tagOk (api.copiedId a.1) = false) →
        (copyAMILoop api amis).2 = Except.error 2) :=
  ⟨createAMIsLoop_error_of_failure api insts, copyAMILoop_error_of_failure api amis⟩

/-- Witness for the C6 amended theorem: a failing create call and a
failing copy call, each producing the fatal exit code 2. -/
theorem create_copy_tag_failure_fatal_witness :
    (createAMIsLoop { allOkApi with createOk := fun i => !(i == "i-1") } false
          ["i-1", "i-2"]).2 = Except.error 2 ∧
      (copyAMILoop { allOkApi with copyOk := fun a => !(a == "ami-1") }
          [("ami-1", "i-1")]).2 = Except.error 2 :=
  ⟨(create_copy_tag_failure_fatal _ ["i-1", "i-2"] []).1
      ⟨"i-1", by decide, Or.inl (by decide)⟩,
    (create_copy_tag_failure_fatal _ [] [("ami-1", "i-1")]).2
      ⟨("ami-1", "i-1"), by decide, Or.inl (by decide)⟩⟩

/-- C7: with the dry-run flag set, no phase issues any mutating remote
call - no deregistration, no snapshot deletion, no image creation and no
image copy - whatever the computed purge set, the matched instances and
the regions; each phase instead emits the DRYRUN log events for the
actions it would have taken (one per would-be deregistration, dependent
snapshot deletion and creation, and one for the skipped copy phase). -/
theorem dry_run_no_mutating_calls (api : EC2Api) (snapFn : String → List String)
    (images : List (String × Int)) (ws : List window) (now : Int)
    (insts : List String) (amis : List (String × String)) (sameRegion : Bool)
    (hs : ∀ x, api.snapshotsOf x = Except.ok (snapFn x)) :
    purgeAMIs api images ws now true =
        ((purgeVictims images ws now).flatMap (fun id =>
            Call.logWouldDeregister id ::
              (snapFn id).map Call.logWouldDeleteSnapshot),
          false) ∧
      (purgeAMIs api images ws now true).1.filter Call.isMutating = [] ∧
      createAMIsLoop api true insts = (insts.map Call.logWouldCreate, Except.ok []) ∧
      (createAMIsLoop api true insts).1.filter Call.isMutating = [] ∧
      mainCopyPhase api true sameRegion amis = ([Call.logWouldCopy], Except.ok ()) ∧
      (mainCopyPhase api true sameRegion amis).1.filter Call.isMutating = [] := by
  have hpurge : purgeAMIs api images ws now true =
      ((purgeVictims images ws now).flatMap (fun id =>
          Call.logWouldDeregister id :: (snapFn id).map Call.logWouldDeleteSnapshot),
        false) :=
    purgeLoop_dry_run api snapFn hs (purgeVictims images ws now)
  have hcreate := createAMIsLoop_dry_run api insts
  have hcopy : mainCopyPhase api true sameRegion amis = ([Call.logWouldCopy], Except.ok ()) :=
    rfl
  refine ⟨hpurge, ?_, hcreate, ?_, hcopy, ?_⟩
  · rw [hpurge]
    rw [List.filter_eq_nil_iff]
    intro c hc
    obtain ⟨x, -, hx⟩ := List.mem_flatMap.mp hc
    rcases List.mem_cons.mp hx with rfl | hx2
    · simp [Call.isMutating]
    · obtain ⟨y, -, hy⟩ := List.mem_map.mp hx2
      rw [← hy]
      simp [Call.isMutating]
  · rw [hcreate]
    rw [List.filter_eq_nil_iff]
    intro c hc
    obtain ⟨y, -, hy⟩ := List.mem_map.mp hc
    rw [← hy]
    simp [Call.isMutating]
  · rw [hcopy]
    simp [Call.isMutating]

/-- Witness for the C7 theorem on a concrete dry run with a non-empty
purge selection, one dependent snapshot per image, one matched instance
and distinct regions. -/
theorem dry_run_no_mutating_calls_witness :
    purgeAMIs { allOkApi with snapshotsOf := fun _ => Except.ok ["snap-1"] }
          [("a", 3), ("b", 5)] [⟨10, 0, 10⟩] 100 true =
        ((purgeVictims [("a", 3), ("b", 5)] [⟨10, 0, 10⟩] 100).flatMap (fun id =>
            Call.logWouldDeregister id ::
              (["snap-1"].map Call.logWouldDeleteSnapshot)),
          false) ∧
      (purgeAMIs { allOkApi with snapshotsOf := fun _ => Except.ok ["snap-1"] }
          [("a", 3), ("b", 5)] [⟨10, 0, 10⟩] 100 true).1.filter Call.isMutating = [] ∧
      createAMIsLoop { allOkApi with snapshotsOf := fun _ => Except.ok ["snap-1"] }
          true ["i-1"] = (["i-1"].map Call.logWouldCreate, Except.ok []) ∧
      (createAMIsLoop { allOkApi with snapshotsOf := fun _ => Except.ok ["snap-1"] }
          true ["i-1"]).1.filter Call.isMutating = [] ∧
      mainCopyPhase { allOkApi with snapshotsOf := fun _ => Except.ok ["snap-1"] }
          true false [("ami-1", "i-1")] = ([Call.logWouldCopy], Except.ok ()) ∧
      (mainCopyPhase { allOkApi with snapshotsOf := fun _ => Except.ok ["snap-1"] }
          true false [("ami-1", "i-1")]).1.filter Call.isMutating = [] :=
  dry_run_no_mutating_calls { allOkApi with snapshotsOf := fun _ => Except.ok ["snap-1"] }
    (fun _ => ["snap-1"]) [("a", 3), ("b", 5)] [⟨10, 0, 10⟩] 100 ["i-1"]
    [("ami-1", "i-1")] false (fun _ => rfl)

end Amibackup
